import Mathlib

/-!
Shallow embedding of the bitbucket-to-gitlab migration tool (src/main.py).

The two platform API clients are modelled as abstract environments
(deterministic functions standing for the responses the clients return);
everything the script itself computes — name mapping, blacklist filtering,
the duplicate-name policy, the permission-reconciliation pass with its
fallback demotion and owner hand-off, and the bounded-concurrency polling
scheduler — is translated function by function from the source.
-/

/-! ### Configuration (module-level config values from main.py) -/

/-- main.py: on_duplicate = 'ignore' (one of 'error', 'ignore', 'rename'). -/
def on_duplicate : String := "ignore"

/-- main.py: parallel_imports = 4, the max number of imports running at once. -/
def parallel_imports : Nat := 4

/-- main.py: project_blacklist = []. -/
def project_blacklist : List String := []

/-- gitlab REPORTER_ACCESS access-level ordinal. -/
def REPORTER_ACCESS : Nat := 20

/-- gitlab DEVELOPER_ACCESS access-level ordinal. -/
def DEVELOPER_ACCESS : Nat := 30

/-- gitlab OWNER_ACCESS access-level ordinal. -/
def OWNER_ACCESS : Nat := 50

/-- main.py: permission_map, a dict from Bitbucket permission names to GitLab
access levels.  A Python dict lookup raises KeyError on a missing key, so the
embedding returns an Option and callers thread the failure. -/
def permission_map (s : String) : Option Nat :=
  if s = "PROJECT_READ" then some REPORTER_ACCESS
  else if s = "REPO_READ" then some REPORTER_ACCESS
  else if s = "PROJECT_WRITE" then some DEVELOPER_ACCESS
  else if s = "REPO_WRITE" then some DEVELOPER_ACCESS
  else if s = "PROJECT_ADMIN" then some OWNER_ACCESS
  else if s = "REPO_ADMIN" then some OWNER_ACCESS
  else none

/-! ### Small string helpers used by the embedding -/

/-- Contiguous-substring search on character lists. -/
def charsContain (needle : List Char) : List Char → Bool
  | [] => needle.isEmpty
  | c :: rest => List.isPrefixOf needle (c :: rest) || charsContain needle rest

/-- Python's "needle in hay" substring test on strings. -/
def pyIn (needle hay : String) : Bool :=
  charsContain needle.toList hay.toList

/-- Python's str.strip(c): remove leading and trailing occurrences of c. -/
def pyStrip (c : Char) (s : String) : String :=
  String.mk (((s.toList.dropWhile (fun x => x == c)).reverse.dropWhile
    (fun x => x == c)).reverse)

/-- Path components of a POSIX path string as pathlib keeps them: empty
components (from repeated or trailing slashes) and single dots are dropped. -/
def posixParts (s : String) : List String :=
  (s.splitOn "/").filter (fun p => p != "" && p != ".")

/-- str(PurePosixPath(a) / b): if b is absolute it replaces a, otherwise the
components of a and b are joined with slashes (an empty result prints as "."). -/
def purePosixDiv (a b : String) : String :=
  if b.startsWith "/" then
    "/" ++ String.intercalate "/" (posixParts b)
  else
    match posixParts a ++ posixParts b with
    | [] => "."
    | ps => String.intercalate "/" ps

/-! ### Name mapping (ProjectMapping, get_gitlab_group) -/

/-- main.py ProjectMapping (a NamedTuple). -/
structure ProjectMapping where
  bb_project : String
  bb_repo : String
  gl_group : String
  gl_project : String
deriving DecidableEq

/-- main.py ProjectMapping.gitlab_path. -/
def ProjectMapping.gitlab_path (p : ProjectMapping) : String :=
  p.gl_group ++ "/" ++ p.gl_project

/-- main.py get_gitlab_group: prepend the configured group prefix (if any,
slashes stripped) to the Bitbucket project key.  The module global
group_prefix becomes the explicit argument prefixPath. -/
def get_gitlab_group (prefixPath : String) (bitbucket_project : String) : String :=
  if prefixPath ≠ "" then
    purePosixDiv (pyStrip '/' prefixPath) bitbucket_project
  else
    bitbucket_project

/-- The ProjectMapping built for one (project, repo) pair in
BitbucketMainRepoGenerator.yield_repos. -/
def map_repo (prefixPath bb_project_slug bb_repo_slug : String) : ProjectMapping :=
  { bb_project := bb_project_slug
    bb_repo := bb_repo_slug
    gl_group := get_gitlab_group prefixPath bb_project_slug
    gl_project := bb_repo_slug }

/-! ### Repository catalog (BitbucketMainRepoGenerator.yield_repos) -/

/-- main.py BitbucketMainRepoGenerator.yield_repos: iterate over the listed
Bitbucket projects in order, skip blacklisted keys, and yield one
ProjectMapping per repo of every remaining project (repo order as returned
by the client, modelled by the repo_list function). -/
def yield_repos (blacklist : List String) (prefixPath : String)
    (projects : List String) (repo_list : String → List String) :
    List ProjectMapping :=
  match projects with
  | [] => []
  | pk :: rest =>
    if pk ∈ blacklist then
      yield_repos blacklist prefixPath rest repo_list
    else
      (repo_list pk).map (fun rs => map_repo prefixPath pk rs)
        ++ yield_repos blacklist prefixPath rest repo_list

/-! ### Permission reconciliation (copy_permissions_for) -/

/-- A GitLab user object, as used by copy_permissions_for (username and id). -/
structure GlUser where
  username : String
  id : Nat
deriving DecidableEq

/-- One entry of a Bitbucket permission listing: bb_user['user']['slug'] and
bb_user['permission'] are the only fields main.py reads. -/
structure BBUserGrant where
  slug : String
  permission : String
deriving DecidableEq

/-- The GitLab client as seen by copy_permissions_for, as a deterministic
environment: users_list n is the first element of gitlab.users.list(username=n)
if any; members_create uid lvl is none on success and some message when the
call raises a GitlabError; members_delete likewise for members.delete. -/
structure GlEnv where
  users_list : String → Option GlUser
  members_create : Nat → Nat → Option String
  members_delete : Nat → Option String

/-- The shared user_map cache: a Python dict from Bitbucket user slug to the
lookup result (None is cached too).  Assignment of a fresh key appends. -/
abbrev UserMap : Type := List (String × Option GlUser)

/-- Python "key in dict". -/
def mapContains (m : UserMap) (k : String) : Bool :=
  m.any (fun e => e.1 == k)

/-- Python "dict[key]" (None when absent; main.py only reads present keys). -/
def mapGet (m : UserMap) (k : String) : Option GlUser :=
  match m.find? (fun e => e.1 == k) with
  | some e => e.2
  | none => none

/-- The user_map after resolving one slug: unchanged on a cache hit, extended
with the (possibly None) users.list result on a miss. -/
def mapAfter (env : GlEnv) (m : UserMap) (k : String) : UserMap :=
  if mapContains m k then m else m ++ [(k, env.users_list k)]

/-- The underlying users.list calls issued while resolving one slug: none on a
cache hit, exactly one on a miss. -/
def lookupsOf (m : UserMap) (k : String) : List String :=
  if mapContains m k then [] else [k]

/-- The value a slug resolves to against cache m and environment env (the
cached value if present, otherwise the fresh lookup result). -/
def resolveVal (env : GlEnv) (m : UserMap) (k : String) : Option GlUser :=
  if mapContains m k then mapGet m k else env.users_list k

/-- Python dict assignment on the users_granted dict: overwrite the existing
key in place or append a fresh one. -/
def dictSet (m : List (String × Nat)) (k : String) (v : Nat) : List (String × Nat) :=
  match m with
  | [] => [(k, v)]
  | e :: rest => if e.1 == k then (k, v) :: rest else e :: dictSet rest k v

/-- Outcome of processing one source grant, mirroring the spec's
PermissionGrant outcomes (instrumentation over the code's log lines). -/
inductive GrantOutcome
  | skippedUnresolved
  | granted (level : Nat)
  | grantedDegraded (level : Nat)
  | alreadyExists
  | inheritedHigher
  | failed
  | simulated (level : Nat)
deriving DecidableEq

/-- Classification of the error message of the failed fallback create, from
the string matching in copy_permissions_for's inner except block. -/
def classifyCreateErr (e : String) : GrantOutcome :=
  if pyIn "already exists" e then .alreadyExists
  else if pyIn "inherited membership from group" e then .inheritedHigher
  else .failed

/-- State and instrumentation produced by processing one bb_user inside
copy_permissions_for's loop: the updated user_map and users_granted dict, the
outcome, and the users_list / members.create calls issued. -/
structure StepResult where
  user_map : UserMap
  users_granted : List (String × Nat)
  outcome : GrantOutcome
  lookups : List String
  creates : List (Nat × Nat)
deriving DecidableEq

/-- One iteration of copy_permissions_for's loop over bb_users: resolve the
slug through the shared cache, map the permission (a missing key raises
KeyError), then — unless the user is unresolved or dry_run — attempt
members.create at the mapped level, retrying once at level - 10 on a
GitlabError and classifying the second error by its message. -/
def processGrant (env : GlEnv) (dry_run : Bool) (m : UserMap)
    (ug : List (String × Nat)) (g : BBUserGrant) : Except String StepResult :=
  let m1 := mapAfter env m g.slug
  let lks := lookupsOf m g.slug
  let gl_user := mapGet m1 g.slug
  match permission_map g.permission with
  | none => .error "KeyError"
  | some gl_user_access =>
    match gl_user with
    | none => .ok ⟨m1, ug, .skippedUnresolved, lks, []⟩
    | some u =>
      let ug1 := dictSet ug u.username gl_user_access
      if dry_run then
        .ok ⟨m1, ug1, .simulated gl_user_access, lks, []⟩
      else
        match env.members_create u.id gl_user_access with
        | none => .ok ⟨m1, ug1, .granted gl_user_access, lks,
            [(u.id, gl_user_access)]⟩
        | some _ =>
          match env.members_create u.id (gl_user_access - 10) with
          | none => .ok ⟨m1, ug1, .grantedDegraded (gl_user_access - 10), lks,
              [(u.id, gl_user_access), (u.id, gl_user_access - 10)]⟩
          | some e2 => .ok ⟨m1, ug1, classifyCreateErr e2, lks,
              [(u.id, gl_user_access), (u.id, gl_user_access - 10)]⟩

/-- copy_permissions_for's loop over the whole bb_users list, accumulating
the outcomes and call traces; a KeyError aborts the function. -/
def processGrants (env : GlEnv) (dry_run : Bool) (m : UserMap)
    (ug : List (String × Nat)) :
    List BBUserGrant →
    Except String (UserMap × List (String × Nat) × List GrantOutcome ×
      List String × List (Nat × Nat))
  | [] => .ok (m, ug, [], [], [])
  | g :: rest =>
    match processGrant env dry_run m ug g with
    | .error e => .error e
    | .ok sr =>
      match processGrants env dry_run sr.user_map sr.users_granted rest with
      | .error e => .error e
      | .ok (m2, ug2, ocs, lks, crs) =>
        .ok (m2, ug2, sr.outcome :: ocs, sr.lookups ++ lks, sr.creates ++ crs)

/-- The observable result of one copy_permissions_for call. -/
structure ReconcileResult where
  user_map : UserMap
  users_granted : List (String × Nat)
  outcomes : List GrantOutcome
  lookups : List String
  creates : List (Nat × Nat)
  delete_attempted : Bool
  delete_error : Option String
deriving DecidableEq

/-- main.py copy_permissions_for: return early when bb_users is empty;
otherwise process every grant through the shared user_map cache, then compute
admin_added = any(level >= 50 for level in users_granted.values()) and, if it
holds and not dry_run, call members.delete on the current user. -/
def copy_permissions_for (env : GlEnv) (bb_users : List BBUserGrant)
    (current_user : GlUser) (dry_run : Bool) (user_map : UserMap) :
    Except String ReconcileResult :=
  if bb_users.isEmpty then
    .ok ⟨user_map, [], [], [], [], false, none⟩
  else
    match processGrants env dry_run user_map [] bb_users with
    | .error e => .error e
    | .ok (m2, ug2, ocs, lks, crs) =>
      let admin_added := ug2.any (fun kv => 50 ≤ kv.2)
      let del := admin_added && !dry_run
      .ok ⟨m2, ug2, ocs, lks, crs, del,
        if del then env.members_delete current_user.id else none⟩

/-- One reconciliation call of a run: its entity environment, the Bitbucket
grant list, and the dry_run flag. -/
structure ReconCall where
  env : GlEnv
  users : List BBUserGrant
  current_user : GlUser
  dry_run : Bool

/-- A sequence of copy_permissions_for calls threading the single shared
user_map (as copy_permissions does for the group and then each repo),
collecting all underlying users_list lookups in order. -/
def run_reconciles (m : UserMap) :
    List ReconCall → Except String (UserMap × List String)
  | [] => .ok (m, [])
  | c :: rest =>
    match copy_permissions_for c.env c.users c.current_user c.dry_run m with
    | .error e => .error e
    | .ok r =>
      match run_reconciles r.user_map rest with
      | .error e => .error e
      | .ok (m2, lks) => .ok (m2, r.lookups ++ lks)

/-! ### The permission pass over all projects (copy_permissions) -/

/-- A target access-control entity, as addressed by copy_permissions. -/
inductive PermEntity
  | group (path : String)
  | project (path : String)
deriving DecidableEq

/-- main.py copy_permissions, reduced to the sequence of copy_permissions_for
invocations it makes: for every listed Bitbucket project in order, skip it
when blacklisted, skip it when its repo list is empty, otherwise reconcile
the group entity and then every repo entity.  Each emitted entry is tagged
with the source project key it came from. -/
def permission_calls (blacklist : List String) (prefixPath : String)
    (projects : List String) (repo_list : String → List String)
    (project_users : String → List BBUserGrant)
    (repo_users : String → String → List BBUserGrant) :
    List (String × PermEntity × List BBUserGrant) :=
  match projects with
  | [] => []
  | pk :: rest =>
    let tail := permission_calls blacklist prefixPath rest repo_list
      project_users repo_users
    if pk ∈ blacklist then tail
    else if repo_list pk = [] then tail
    else
      let gl_group_path := get_gitlab_group prefixPath pk
      (pk, .group gl_group_path, project_users pk)
        :: (repo_list pk).map (fun rs =>
          (pk, .project (gl_group_path ++ "/" ++ rs), repo_users pk rs))
        ++ tail

/-! ### Import submission and the duplicate-name policy (trigger_import) -/

/-- An exception raised by the import submission: a GitlabHttpError with its
response code and message, or any other error. -/
inductive SubmitErr
  | http (response_code : Nat) (msg : String)
  | other (msg : String)
deriving DecidableEq

/-- The GitLab client as seen by the import path: submitting
(target_namespace, new_name) either starts a job (its id) or raises. -/
structure ImportEnv where
  import_bitbucket_server : String → String → Except SubmitErr Nat

/-- main.py _trigger_import: append the suffix (if any) to the project slug
and submit, also returning the (target_namespace, new_name) submission
attempt for instrumentation. -/
def _trigger_import (env : ImportEnv) (p : ProjectMapping)
    (suffix : Option String) : List (String × String) × Except SubmitErr Nat :=
  let gl_project_slug :=
    match suffix with
    | some s => p.gl_project ++ s
    | none => p.gl_project
  ([(p.gl_group, gl_project_slug)],
    env.import_bitbucket_server p.gl_group gl_project_slug)

/-- An error escaping trigger_import: a propagated submission error or the
ValueError for an unknown on_duplicate value. -/
inductive TriggerErr
  | gitlab (e : SubmitErr)
  | valueError (msg : String)
deriving DecidableEq

/-- The condition of trigger_import's except clause: a GitlabHttpError with
response_code 422 whose message contains "Path has already been taken". -/
def isNameTakenConflict (e : SubmitErr) : Bool :=
  match e with
  | .http code msg => code == 422 && pyIn "Path has already been taken" msg
  | .other _ => false

/-- main.py trigger_import: under 'error' submit directly; under 'ignore' or
'rename' catch a name-taken conflict and either skip (returning None) or
resubmit once with the "_BB" suffix (whose own failure propagates); any other
error propagates; any other policy string raises ValueError.  Returns the
submission attempts made plus the result (some job, None when skipped). -/
def trigger_import (env : ImportEnv) (policy : String) (p : ProjectMapping) :
    List (String × String) × Except TriggerErr (Option Nat) :=
  if policy = "error" then
    match _trigger_import env p none with
    | (tr, .ok j) => (tr, .ok (some j))
    | (tr, .error e) => (tr, .error (.gitlab e))
  else if policy = "ignore" ∨ policy = "rename" then
    match _trigger_import env p none with
    | (tr, .ok j) => (tr, .ok (some j))
    | (tr, .error e) =>
      if isNameTakenConflict e then
        if policy = "ignore" then
          (tr, .ok none)
        else
          match _trigger_import env p (some "_BB") with
          | (tr2, .ok j) => (tr ++ tr2, .ok (some j))
          | (tr2, .error e2) => (tr ++ tr2, .error (.gitlab e2))
      else
        (tr, .error (.gitlab e))
  else
    ([], .error (.valueError policy))

/-! ### The scheduling loop (import_projects, check_and_sleep) -/

/-- One round of check_and_sleep's loop over the in-flight jobs: keep exactly
the jobs whose polled import_status at round t is "started".  Jobs are their
remote ids; status is the deterministic poll response per job and round. -/
def checkJobs (status : Nat → Nat → String) (t : Nat) : List Nat → List Nat
  | [] => []
  | j :: rest =>
    if status j t == "started" then j :: checkJobs status t rest
    else checkJobs status t rest

/-- main.py check_and_sleep: poll every in-flight job, keep the still-started
ones, and sleep the fixed backoff iff at least N of them remain.  Returns the
new in-flight list and whether the sleep happened. -/
def check_and_sleep (N : Nat) (status : Nat → Nat → String) (t : Nat)
    (processing : List Nat) : List Nat × Bool :=
  let updated := checkJobs status t processing
  (updated, decide (N ≤ updated.length))

/-- The outcome of one trigger_import call as the scheduler sees it. -/
inductive TriggerOutcome
  | job (j : Nat)
  | skipped
  | fatal (e : String)
deriving DecidableEq

/-- The environment of one import_projects run: the trigger outcome per
source mapping and the polled status per job id and poll round. -/
structure SchedEnv where
  trigger : ProjectMapping → TriggerOutcome
  status : Nat → Nat → String

/-- Terminal result of the scheduling loop. -/
inductive LoopResult
  | done (counter : Nat)
  | fatal (e : String)
deriving DecidableEq

/-- main.py import_projects, second phase ("while processing"): poll rounds
until the in-flight list is empty, then report the counter.  Fuel-indexed;
the trace records the in-flight list at each iteration entry, and the result
is none when the fuel runs out. -/
def drain_loop (env : SchedEnv) (N : Nat) :
    Nat → List Nat → Nat → Nat → List (List Nat) × Option LoopResult
  | 0, processing, _, _ => ([processing], none)
  | fuel + 1, processing, counter, t =>
    if processing.isEmpty then ([processing], some (.done counter))
    else
      let upd := (check_and_sleep N env.status t processing).1
      (processing :: (drain_loop env N fuel upd counter (t + 1)).1,
        (drain_loop env N fuel upd counter (t + 1)).2)

/-- main.py import_projects, first phase ("while True"): whenever the
in-flight list is below the bound pull the next mapping and trigger it (a
returned job is appended and counted, a skip is not, a fatal error aborts);
on StopIteration break into drain_loop; when the bound is reached run a
check_and_sleep round instead.  Fuel-indexed as drain_loop. -/
def import_loop (env : SchedEnv) (N : Nat) :
    Nat → List ProjectMapping → List Nat → Nat → Nat →
    List (List Nat) × Option LoopResult
  | 0, _, processing, _, _ => ([processing], none)
  | fuel + 1, pending, processing, counter, t =>
    if processing.length < N then
      match pending with
      | [] =>
        (processing :: (drain_loop env N fuel processing counter t).1,
          (drain_loop env N fuel processing counter t).2)
      | p :: rest =>
        match env.trigger p with
        | .job j =>
          (processing ::
            (import_loop env N fuel rest (processing ++ [j]) (counter + 1) t).1,
            (import_loop env N fuel rest (processing ++ [j]) (counter + 1) t).2)
        | .skipped =>
          (processing :: (import_loop env N fuel rest processing counter t).1,
            (import_loop env N fuel rest processing counter t).2)
        | .fatal e => ([processing], some (.fatal e))
    else
      let upd := (check_and_sleep N env.status t processing).1
      (processing :: (import_loop env N fuel pending upd counter (t + 1)).1,
        (import_loop env N fuel pending upd counter (t + 1)).2)

/-- Whether a trigger outcome produced a job (counted by import_projects). -/
def TriggerOutcome.isJob : TriggerOutcome → Bool
  | .job _ => true
  | _ => false

/-! ### Claim-level predicates and derived characterizations -/

/-- Whether a list of grant outcomes contains a grant that actually reached
the admin/owner tier (Granted or GrantedDegraded at level >= 50). -/
def reachedAdminTier (ocs : List GrantOutcome) : Bool :=
  ocs.any (fun oc =>
    match oc with
    | .granted l => 50 ≤ l
    | .grantedDegraded l => 50 ≤ l
    | _ => false)

/-- The users_granted dict copy_permissions_for ends up with, characterized
directly from the inputs: every grant whose slug resolves (through cache m
then env) and whose permission maps contributes its mapped level under the
resolved username, later writes overwriting earlier ones. -/
def granted_levels (env : GlEnv) (m : UserMap) (ug : List (String × Nat)) :
    List BBUserGrant → List (String × Nat)
  | [] => ug
  | g :: rest =>
    match resolveVal env m g.slug, permission_map g.permission with
    | some u, some l => granted_levels env m (dictSet ug u.username l) rest
    | _, _ => granted_levels env m ug rest

/-- Outcome of the fallback create at one tier (10 ordinals) below the mapped
level: GrantedDegraded on success, otherwise the message classification. -/
def fallbackOutcome (env : GlEnv) (uid l : Nat) : GrantOutcome :=
  match env.members_create uid (l - 10) with
  | none => .grantedDegraded (l - 10)
  | some e2 => classifyCreateErr e2

/-- Whether a grant list references a given source identity slug. -/
def usersRef (users : List BBUserGrant) (n : String) : Bool :=
  users.any (fun g => g.slug == n)

/-- Whether any reconciliation call of a run references a given slug. -/
def callsRef (calls : List ReconCall) (n : String) : Bool :=
  calls.any (fun c => usersRef c.users n)

/-- The result of trigger_import's single rename retry: the suffixed
submission's job on success, its error propagated otherwise. -/
def renameRetryResult (env : ImportEnv) (p : ProjectMapping) :
    Except TriggerErr (Option Nat) :=
  match env.import_bitbucket_server p.gl_group (p.gl_project ++ "_BB") with
  | .ok j => .ok (some j)
  | .error e2 => .error (.gitlab e2)

/-- Job j is no longer reported "started" at any poll round from T on. -/
def stopsAfter (env : SchedEnv) (T : Nat) (j : Nat) : Prop :=
  ∀ t, T ≤ t → env.status j t ≠ "started"

/-! ### Concrete instances used by counterexamples and witnesses -/

/-- GitLab environment where "bob" resolves to user id 7 and every
members.create call fails with a plain error. -/
def envC1 : GlEnv where
  users_list := fun n => if n == "bob" then some ⟨"bob", 7⟩ else none
  members_create := fun _ _ => some "boom"
  members_delete := fun _ => none

/-- A single source grant giving bob PROJECT_ADMIN. -/
def usersC1 : List BBUserGrant := [⟨"bob", "PROJECT_ADMIN"⟩]

/-- The migrating service account. -/
def svcUser : GlUser := ⟨"svc", 1⟩

/-- The reconciliation result of envC1 / usersC1 (computed by hand; checked
against copy_permissions_for in the proofs below). -/
def rC1 : ReconcileResult :=
  ⟨[("bob", some ⟨"bob", 7⟩)], [("bob", 50)], [.failed], ["bob"],
    [(7, 50), (7, 40)], true, none⟩

/-- GitLab environment where only "alice" resolves and creates succeed. -/
def envC4 : GlEnv where
  users_list := fun n => if n == "alice" then some ⟨"alice", 2⟩ else none
  members_create := fun _ _ => none
  members_delete := fun _ => none

/-- Two reconciliation calls both referencing alice (resolvable) and bob
(unresolvable). -/
def callsC4 : List ReconCall :=
  [⟨envC4, [⟨"alice", "REPO_WRITE"⟩, ⟨"bob", "REPO_ADMIN"⟩], svcUser, false⟩,
    ⟨envC4, [⟨"alice", "REPO_READ"⟩, ⟨"bob", "REPO_READ"⟩], svcUser, false⟩]

/-- The shared cache after the callsC4 run. -/
def mC4 : UserMap := [("alice", some ⟨"alice", 2⟩), ("bob", none)]

/-- A mapping whose target slot grp/api is already taken. -/
def pC3 : ProjectMapping := ⟨"ACME", "api", "grp", "api"⟩

/-- The name-taken conflict response for grp/api. -/
def errC3 : SubmitErr := .http 422 "Path has already been taken"

/-- Import environment where grp/api conflicts and grp/api_BB succeeds. -/
def envC3 : ImportEnv where
  import_bitbucket_server := fun ns nm =>
    if ns == "grp" && nm == "api" then .error errC3
    else if ns == "grp" && nm == "api_BB" then .ok 5
    else .error (.other "unexpected")

/-- Scheduler environment where every mapping triggers job 0 and every poll
reports "finished". -/
def envSched : SchedEnv where
  trigger := fun _ => .job 0
  status := fun _ _ => "finished"

/-! ### Helper lemmas -/

/-- One check_and_sleep round keeps exactly the jobs polled as "started". -/
theorem checkJobs_eq_filter (status : Nat → Nat → String) (t : Nat) :
    ∀ l : List Nat,
      checkJobs status t l = l.filter (fun j => status j t == "started") := by
  intro l
  induction l with
  | nil => rfl
  | cons j rest ih =>
    by_cases h : status j t == "started" <;> simp [checkJobs, h, ih]

/-! ### C7 -/

/-- C7: in every poll round, check_and_sleep sleeps the fixed backoff iff the
number of jobs still in Started state after the round is at least the
concurrency limit N; with fewer than N still started it returns immediately.
The second conjunct pins the surviving jobs down as exactly those whose
polled status is "started". -/
theorem check_and_sleep_backoff_iff (N : Nat) (status : Nat → Nat → String)
    (t : Nat) (processing : List Nat) :
    ((check_and_sleep N status t processing).2 = true ↔
      N ≤ (check_and_sleep N status t processing).1.length) ∧
    (check_and_sleep N status t processing).1 =
      processing.filter (fun j => status j t == "started") := by
  constructor
  · simp [check_and_sleep]
  · simp [check_and_sleep, checkJobs_eq_filter]

/-! ### C8 -/

/-- C8: the name mapping is a pure function — mapping the same descriptor
with the same prefix twice gives identical results — and supplying a rename
suffix to _trigger_import changes only the submitted repo slug (the suffix is
appended to it) while the submitted target namespace is unchanged. -/
theorem name_mapping_pure_and_suffix_slug_only (prefixPath g r : String)
    (env : ImportEnv) (p : ProjectMapping) (s : String) :
    map_repo prefixPath g r = map_repo prefixPath g r ∧
    (_trigger_import env p (some s)).1.map Prod.fst =
      (_trigger_import env p none).1.map Prod.fst ∧
    (_trigger_import env p (some s)).1.map Prod.snd =
      ((_trigger_import env p none).1.map Prod.snd).map (fun n => n ++ s) :=
  ⟨rfl, rfl, rfl⟩

/-! ### C6 -/

/-- Yielded repos plus repos of blacklisted groups account for all repos. -/
theorem yield_repos_length_add (blacklist : List String) (prefixPath : String)
    (repo_list : String → List String) :
    ∀ projects : List String,
      (yield_repos blacklist prefixPath projects repo_list).length
        + ((projects.filter (fun pk => decide (pk ∈ blacklist))).map
            (fun pk => (repo_list pk).length)).sum
      = (projects.map (fun pk => (repo_list pk).length)).sum := by
  intro projects
  induction projects with
  | nil => simp [yield_repos]
  | cons pk rest ih =>
    by_cases h : pk ∈ blacklist
    · simp [yield_repos, List.filter_cons, h]
      omega
    · simp [yield_repos, List.filter_cons, h]
      omega

/-- C6: for every blacklist, the repository catalog never yields a mapping
whose Bitbucket project key is blacklisted, and the number of yielded
mappings is the total number of repos over all listed projects minus the
number of repos in blacklisted projects. -/
theorem yield_repos_blacklist_and_length (blacklist : List String)
    (prefixPath : String) (projects : List String)
    (repo_list : String → List String) :
    (∀ m ∈ yield_repos blacklist prefixPath projects repo_list,
      m.bb_project ∉ blacklist) ∧
    (yield_repos blacklist prefixPath projects repo_list).length =
      (projects.map (fun pk => (repo_list pk).length)).sum
        - ((projects.filter (fun pk => decide (pk ∈ blacklist))).map
            (fun pk => (repo_list pk).length)).sum := by
  constructor
  · induction projects with
    | nil => simp [yield_repos]
    | cons pk rest ih =>
      by_cases h : pk ∈ blacklist
      · simpa [yield_repos, h] using ih
      · intro m hm
        simp only [yield_repos, if_neg h, List.mem_append, List.mem_map] at hm
        rcases hm with ⟨rs, _, rfl⟩ | hm
        · exact h
        · exact ih m hm
  · have h := yield_repos_length_add blacklist prefixPath repo_list projects
    omega

/-- Witness for C6 at a concrete catalog: project A survives the blacklist
containing B, and its first repo mapping is indeed not blacklisted. -/
theorem yield_repos_blacklist_and_length_witness :
    (map_repo "" "A" "r1" ∈ yield_repos ["B"] "" ["A", "B"]
      (fun pk => if pk == "A" then ["r1", "r2"] else ["r3"])) ∧
    (map_repo "" "A" "r1").bb_project ∉ ["B"] :=
  ⟨by decide,
    (yield_repos_blacklist_and_length ["B"] "" ["A", "B"]
      (fun pk => if pk == "A" then ["r1", "r2"] else ["r3"])).1
      (map_repo "" "A" "r1") (by decide)⟩

/-! ### C10 -/

/-- C10: a non-blacklisted source project with an empty repo list is skipped
entirely by the permission pass: no reconciliation call — neither for its
group entity nor for any repo entity — is emitted for it, whatever its
group-level grant list holds. -/
theorem empty_group_skipped (blacklist : List String) (prefixPath : String)
    (projects : List String) (repo_list : String → List String)
    (project_users : String → List BBUserGrant)
    (repo_users : String → String → List BBUserGrant) (pk : String)
    (hbl : pk ∉ blacklist) (hempty : repo_list pk = []) :
    (permission_calls blacklist prefixPath projects repo_list project_users
      repo_users).all (fun ent => ent.1 != pk) = true := by
  induction projects with
  | nil => rfl
  | cons q rest ih =>
    by_cases hq : q ∈ blacklist
    · simpa [permission_calls, hq] using ih
    · by_cases hr : repo_list q = []
      · simpa [permission_calls, hq, hr] using ih
      · have hqpk : (q != pk) = true := by
          rcases eq_or_ne q pk with rfl | hne
          · exact absurd hempty hr
          · simpa using hne
        simp only [permission_calls, if_neg hq, if_neg hr, List.all_cons,
          List.all_append, Bool.and_eq_true]
        refine ⟨⟨hqpk, ?_⟩, ih⟩
        rw [List.all_eq_true]
        intro ent hent
        rcases List.mem_map.mp hent with ⟨rs, _, rfl⟩
        exact hqpk

/-- Witness for C10: project E (not blacklisted, no repos, non-empty group
grant list) produces no reconciliation call at all while project F does. -/
theorem empty_group_skipped_witness :
    (("E" : String) ∉ ([] : List String)) ∧
    ((fun pk => if pk == "F" then ["r"] else ([] : List String)) "E" = []) ∧
    (permission_calls [] "" ["E", "F"]
      (fun pk => if pk == "F" then ["r"] else [])
      (fun _ => usersC1) (fun _ _ => usersC1)).all
        (fun ent => ent.1 != "E") = true :=
  ⟨by decide, by decide,
    empty_group_skipped [] "" ["E", "F"]
      (fun pk => if pk == "F" then ["r"] else [])
      (fun _ => usersC1) (fun _ _ => usersC1) "E" (by decide) (by decide)⟩

/-! ### C3 -/

/-- C3: given that submitting the mapping's own slug answers a name-taken
conflict (HTTP 422, "Path has already been taken"): under the 'error' policy
the conflict propagates; under 'ignore' the repo is skipped with no job;
under 'rename' exactly one retry is submitted, with the "_BB" suffix appended
to the slug, and its result (including a second conflict) propagates.  The
last conjunct: a submission error that is not the name-taken conflict is
fatal under every policy. -/
theorem trigger_import_duplicate_policy (env : ImportEnv) (p : ProjectMapping)
    (e : SubmitErr)
    (hsub : env.import_bitbucket_server p.gl_group p.gl_project = .error e)
    (hconf : isNameTakenConflict e = true) :
    trigger_import env "error" p =
      ([(p.gl_group, p.gl_project)], .error (.gitlab e)) ∧
    trigger_import env "ignore" p = ([(p.gl_group, p.gl_project)], .ok none) ∧
    trigger_import env "rename" p =
      ([(p.gl_group, p.gl_project), (p.gl_group, p.gl_project ++ "_BB")],
        renameRetryResult env p) ∧
    (∀ (env2 : ImportEnv) (p2 : ProjectMapping) (e2 : SubmitErr),
      env2.import_bitbucket_server p2.gl_group p2.gl_project = .error e2 →
      isNameTakenConflict e2 = false →
      ∀ pol, pol = "error" ∨ pol = "ignore" ∨ pol = "rename" →
      (trigger_import env2 pol p2).2 = .error (.gitlab e2)) := by
  refine ⟨?_, ?_, ?_, ?_⟩
  · simp [trigger_import, _trigger_import, hsub]
  · simp [trigger_import, _trigger_import, hsub, hconf]
  · simp only [trigger_import, _trigger_import, hsub, hconf,
      renameRetryResult]
    norm_num
    cases h2 : env.import_bitbucket_server p.gl_group (p.gl_project ++ "_BB")
      <;> simp [h2]
  · intro env2 p2 e2 h1 h2 pol hpol
    rcases hpol with rfl | rfl | rfl <;>
      simp [trigger_import, _trigger_import, h1, h2]

/-- Witness for C3: at envC3 the slot grp/api is taken, 'ignore' skips and
'rename' submits exactly the one suffixed retry. -/
theorem trigger_import_duplicate_policy_witness :
    (envC3.import_bitbucket_server pC3.gl_group pC3.gl_project =
      .error errC3) ∧
    (isNameTakenConflict errC3 = true) ∧
    trigger_import envC3 "ignore" pC3 = ([("grp", "api")], .ok none) ∧
    trigger_import envC3 "rename" pC3 =
      ([("grp", "api"), ("grp", "api_BB")], renameRetryResult envC3 pC3) :=
  ⟨by rfl, by decide,
    (trigger_import_duplicate_policy envC3 pC3 errC3 (by rfl)
      (by decide)).2.1,
    (trigger_import_duplicate_policy envC3 pC3 errC3 (by rfl)
      (by decide)).2.2.1⟩

/-! ### Cache lemmas for the reconciliation proofs -/

/-- Membership in the cache after appending one entry. -/
theorem mapContains_append_single (m : UserMap) (k : String)
    (v : Option GlUser) (n : String) :
    mapContains (m ++ [(k, v)]) n = (mapContains m n || k == n) := by
  simp [mapContains, List.any_append]

/-- Reading the cache after appending one entry. -/
theorem mapGet_append_single (m : UserMap) (k : String) (v : Option GlUser)
    (n : String) :
    mapGet (m ++ [(k, v)]) n =
      if mapContains m n then mapGet m n
      else (if k == n then v else none) := by
  induction m with
  | nil =>
    by_cases h : k == n <;> simp [mapGet, mapContains, List.find?, h]
  | cons e m ih =>
    by_cases he : e.1 == n
    · simp [mapGet, mapContains, List.find?, he]
    · have hc : mapContains (e :: m) n = mapContains m n := by
        simp [mapContains, he]
      have hg : ∀ l : UserMap, mapGet (e :: l) n = mapGet l n := by
        intro l
        simp [mapGet, List.find?, he]
      rw [List.cons_append, hg, ih, hc, hg]

/-- Membership after resolving one slug. -/
theorem mapContains_mapAfter (env : GlEnv) (m : UserMap) (k n : String) :
    mapContains (mapAfter env m k) n = (mapContains m n || k == n) := by
  unfold mapAfter
  by_cases hk : mapContains m k
  · by_cases hkn : k == n
    · have : k = n := by simpa using hkn
      subst this
      simp [hk]
    · simp [hk, hkn]
  · simp [hk, mapContains_append_single]

/-- Resolving one slug never changes what any slug resolves to. -/
theorem resolveVal_mapAfter (env : GlEnv) (m : UserMap) (k n : String) :
    resolveVal env (mapAfter env m k) n = resolveVal env m n := by
  by_cases hk : mapContains m k
  · unfold mapAfter
    simp [hk]
  · unfold resolveVal mapAfter
    rw [if_neg hk, mapContains_append_single, mapGet_append_single]
    by_cases hn : mapContains m n
    · simp [hn]
    · by_cases hkn : k == n
      · have hEq : k = n := by simpa using hkn
        subst hEq
        simp [hn, hk]
      · simp [hn, hkn]

/-- The cached read right after resolving a slug is the resolved value. -/
theorem mapGet_mapAfter_self (env : GlEnv) (m : UserMap) (k : String) :
    mapGet (mapAfter env m k) k = resolveVal env m k := by
  unfold mapAfter resolveVal
  by_cases hk : mapContains m k
  · simp [hk]
  · simp [hk, mapGet_append_single]

/-- Structural facts about one loop iteration: whatever the create results,
the iteration updates the cache by resolving the slug, issues the expected
lookups, and updates users_granted with the resolved username's mapped level
exactly when the slug resolves. -/
theorem processGrant_fields (env : GlEnv) (dry : Bool) (m : UserMap)
    (ug : List (String × Nat)) (g : BBUserGrant) (sr : StepResult)
    (h : processGrant env dry m ug g = .ok sr) :
    sr.user_map = mapAfter env m g.slug ∧
    sr.lookups = lookupsOf m g.slug ∧
    sr.users_granted = (match resolveVal env m g.slug,
        permission_map g.permission with
      | some u, some l => dictSet ug u.username l
      | _, _ => ug) := by
  simp only [processGrant, mapGet_mapAfter_self] at h
  rcases hp : permission_map g.permission with _ | l <;> rw [hp] at h
  · exact absurd h (by simp)
  · rcases hr : resolveVal env m g.slug with _ | u <;> rw [hr] at h
    · simp only [Except.ok.injEq] at h
      subst h
      simp [hr, hp]
    · cases dry
      · simp only [Bool.false_eq_true, if_false] at h
        rcases hc : env.members_create u.id l with _ | e1 <;> rw [hc] at h
        · simp only [Except.ok.injEq] at h
          subst h
          simp [hr, hp]
        · rcases hc2 : env.members_create u.id (l - 10) with _ | e2 <;>
            rw [hc2] at h <;> simp only [Except.ok.injEq] at h <;>
            subst h <;> simp [hr, hp]
      · simp only [if_true] at h
        simp only [Except.ok.injEq] at h
        subst h
        simp [hr, hp]

/-- granted_levels is insensitive to resolving one more slug into the cache. -/
theorem granted_levels_mapAfter (env : GlEnv) (m : UserMap) (k : String) :
    ∀ (users : List BBUserGrant) (ug : List (String × Nat)),
      granted_levels env (mapAfter env m k) ug users =
        granted_levels env m ug users := by
  intro users
  induction users with
  | nil => intro ug; rfl
  | cons g rest ih =>
    intro ug
    simp only [granted_levels, resolveVal_mapAfter]
    rcases resolveVal env m g.slug with _ | u <;>
      rcases permission_map g.permission with _ | l <;> simp [ih]

/-- Combined specification of the loop over a whole grant list: the final
users_granted dict is granted_levels, one outcome is recorded per grant, the
lookup trace contains one lookup for a slug iff it is referenced and was not
already cached, and the final cache holds exactly the old keys plus the
referenced slugs. -/
theorem processGrants_ok_spec (env : GlEnv) (dry : Bool) (n : String) :
    ∀ (users : List BBUserGrant) (m : UserMap) (ug : List (String × Nat))
      (m2 : UserMap) (ug2 : List (String × Nat)) (ocs : List GrantOutcome)
      (lks : List String) (crs : List (Nat × Nat)),
      processGrants env dry m ug users = .ok (m2, ug2, ocs, lks, crs) →
      ug2 = granted_levels env m ug users ∧
      ocs.length = users.length ∧
      lks.count n = (if !mapContains m n && usersRef users n then 1 else 0) ∧
      mapContains m2 n = (mapContains m n || usersRef users n) := by
  intro users
  induction users with
  | nil =>
    intro m ug m2 ug2 ocs lks crs h
    simp only [processGrants, Except.ok.injEq, Prod.mk.injEq] at h
    obtain ⟨h1, h2, h3, h4, h5⟩ := h
    subst h1; subst h2; subst h3; subst h4; subst h5
    simp [granted_levels, usersRef]
  | cons g rest ih =>
    intro m ug m2 ug2 ocs lks crs h
    simp only [processGrants] at h
    rcases hg : processGrant env dry m ug g with e | sr <;> rw [hg] at h
    · exact absurd h (by simp)
    · dsimp only at h
      rcases hrest : processGrants env dry sr.user_map sr.users_granted rest
        with e | ⟨m3, ug3, ocs3, lks3, crs3⟩ <;> rw [hrest] at h
      · exact absurd h (by simp)
      · simp only [Except.ok.injEq, Prod.mk.injEq] at h
        obtain ⟨h1, h2, h3, h4, h5⟩ := h
        subst h1; subst h2; subst h3; subst h4; subst h5
        obtain ⟨hm, hlk, hug⟩ := processGrant_fields env dry m ug g sr hg
        obtain ⟨ih1, ih2, ih3, ih4⟩ := ih sr.user_map sr.users_granted
          m3 ug3 ocs3 lks3 crs3 hrest
        refine ⟨?_, ?_, ?_, ?_⟩
        · rw [ih1, hm, granted_levels_mapAfter, hug]
          simp only [granted_levels]
          rcases resolveVal env m g.slug with _ | u <;>
            rcases permission_map g.permission with _ | l <;> simp
        · simp [ih2]
        · rw [List.count_append, hlk, ih3, hm, mapContains_mapAfter]
          simp only [lookupsOf, usersRef, List.any_cons]
          by_cases hn : mapContains m n
          · simp [hn]
            by_cases hgs : mapContains m g.slug <;> by_cases hgn : g.slug == n
            · simp [hgs]
            · simp [hgs]
            · have : g.slug = n := by simpa using hgn
              rw [this] at hgs
              exact absurd hn hgs
            · simp [hgs, List.count_cons, hgn]
          · by_cases hgn : g.slug == n
            · have hEq : g.slug = n := by simpa using hgn
              subst hEq
              simp [hn, List.count_cons]
            · by_cases hgs : mapContains m g.slug
              · simp [hgs, hn, hgn, usersRef]
              · simp [hgs, hn, hgn, List.count_cons, usersRef]
        · rw [ih4, hm, mapContains_mapAfter]
          simp only [usersRef, List.any_cons]
          by_cases hn : mapContains m n <;> by_cases hgn : g.slug == n <;>
            simp [hn, hgn]

/-- Specification of one successful copy_permissions_for call: the delete of
the current user is attempted iff some (resolved, last-written) granted level
is at least 50 and this is not a dry run; one outcome is recorded per grant;
the lookup trace and cache grow exactly by the uncached referenced slugs. -/
theorem copy_permissions_for_ok_spec (env : GlEnv)
    (bb_users : List BBUserGrant) (cu : GlUser) (dry : Bool) (m : UserMap)
    (r : ReconcileResult) (n : String)
    (h : copy_permissions_for env bb_users cu dry m = .ok r) :
    r.delete_attempted =
      ((granted_levels env m [] bb_users).any (fun kv => 50 ≤ kv.2)
        && !dry) ∧
    r.outcomes.length = bb_users.length ∧
    r.lookups.count n =
      (if !mapContains m n && usersRef bb_users n then 1 else 0) ∧
    mapContains r.user_map n = (mapContains m n || usersRef bb_users n) := by
  unfold copy_permissions_for at h
  by_cases he : bb_users.isEmpty
  · rw [if_pos he] at h
    obtain rfl : bb_users = [] := by simpa using he
    simp only [Except.ok.injEq] at h
    subst h
    simp [granted_levels, usersRef]
  · rw [if_neg he] at h
    rcases hp : processGrants env dry m [] bb_users
      with e | ⟨m2, ug2, ocs, lks, crs⟩ <;> rw [hp] at h
    · exact absurd h (by simp)
    · dsimp only at h
      simp only [Except.ok.injEq] at h
      subst h
      obtain ⟨h1, h2, h3, h4⟩ :=
        processGrants_ok_spec env dry n bb_users m [] m2 ug2 ocs lks crs hp
      exact ⟨by rw [h1], h2, h3, h4⟩

/-! ### C1 -/

/-- C1 counterexample: with a single PROJECT_ADMIN grant for bob whose
members.create fails at both tiers (outcome Failed — no grant reached the
admin/owner tier), copy_permissions_for nevertheless deletes the current
user's membership, so the removal is not equivalent to a grant having
actually reached the admin tier. -/
theorem copy_permissions_for_demotion_claim_cx :
    (copy_permissions_for envC1 usersC1 svcUser false []).toOption.map
        (fun r => (r.delete_attempted, reachedAdminTier r.outcomes))
      = some (true, false) := by
  decide

/-- C1 (amended): after a successful copy_permissions_for run the initiating
user's membership delete is issued iff it is not a dry run and some source
grant resolved to a target identity whose (last-written) mapped access level
is at the admin/owner tier (>= 50) — independently of whether the
members.create call succeeded, was degraded, or failed. -/
theorem copy_permissions_for_demotion_amended (env : GlEnv)
    (bb_users : List BBUserGrant) (cu : GlUser) (dry : Bool) (m : UserMap)
    (r : ReconcileResult)
    (h : copy_permissions_for env bb_users cu dry m = .ok r) :
    r.delete_attempted =
      ((granted_levels env m [] bb_users).any (fun kv => 50 ≤ kv.2)
        && !dry) :=
  (copy_permissions_for_ok_spec env bb_users cu dry m r "" h).1

/-- Witness for the amended C1 at the concrete failing-create run. -/
theorem copy_permissions_for_demotion_amended_witness :
    (copy_permissions_for envC1 usersC1 svcUser false [] = .ok rC1) ∧
    rC1.delete_attempted =
      ((granted_levels envC1 [] [] usersC1).any (fun kv => 50 ≤ kv.2)
        && !false) :=
  ⟨by rfl,
    copy_permissions_for_demotion_amended envC1 usersC1 svcUser false [] rC1
      (by rfl)⟩

/-! ### C4 -/

/-- Lookup trace of a whole run threading the shared cache: a slug is looked
up once iff it is referenced by some call and was not already cached, and the
final cache contains the old keys plus all referenced slugs. -/
theorem run_reconciles_lookup_spec (n : String) :
    ∀ (calls : List ReconCall) (m m2 : UserMap) (lks : List String),
      run_reconciles m calls = .ok (m2, lks) →
      lks.count n =
        (if !mapContains m n && callsRef calls n then 1 else 0) ∧
      mapContains m2 n = (mapContains m n || callsRef calls n) := by
  intro calls
  induction calls with
  | nil =>
    intro m m2 lks h
    simp only [run_reconciles, Except.ok.injEq, Prod.mk.injEq] at h
    obtain ⟨h1, h2⟩ := h
    subst h1; subst h2
    simp [callsRef]
  | cons c rest ih =>
    intro m m2 lks h
    simp only [run_reconciles] at h
    rcases hc : copy_permissions_for c.env c.users c.current_user c.dry_run m
      with e | r <;> rw [hc] at h
    · exact absurd h (by simp)
    · dsimp only at h
      rcases hrest : run_reconciles r.user_map rest
        with e | ⟨m3, lks3⟩ <;> rw [hrest] at h
      · exact absurd h (by simp)
      · simp only [Except.ok.injEq, Prod.mk.injEq] at h
        obtain ⟨h1, h2⟩ := h
        subst h1; subst h2
        obtain ⟨-, -, h3, h4⟩ := copy_permissions_for_ok_spec c.env c.users
          c.current_user c.dry_run m r n hc
        obtain ⟨ih1, ih2⟩ := ih r.user_map m3 lks3 hrest
        constructor
        · rw [List.count_append, h3, ih1, h4]
          simp only [callsRef, List.any_cons]
          by_cases hn : mapContains m n <;>
            by_cases hu : usersRef c.users n <;>
              simp [hn, hu, callsRef]
        · rw [ih2, h4]
          simp [callsRef, List.any_cons, Bool.or_assoc]

/-- C4: in a run of reconciliation calls sharing the (initially empty)
identity cache, each referenced source slug triggers exactly one underlying
users.list lookup — and an unreferenced slug none — regardless of how often
it is referenced and of whether the lookup resolved or came back empty. -/
theorem run_reconciles_single_lookup (calls : List ReconCall) (m2 : UserMap)
    (lks : List String) (hok : run_reconciles [] calls = .ok (m2, lks))
    (n : String) :
    lks.count n = if callsRef calls n then 1 else 0 := by
  have h := (run_reconciles_lookup_spec n calls [] m2 lks hok).1
  simpa [mapContains] using h

/-- Witness for C4: two calls each referencing alice (resolved) and bob
(unresolved); the run performs exactly one lookup for each. -/
theorem run_reconciles_single_lookup_witness :
    (run_reconciles [] callsC4 = .ok (mC4, ["alice", "bob"])) ∧
    (["alice", "bob"] : List String).count "bob" =
      (if callsRef callsC4 "bob" then 1 else 0) :=
  ⟨by rfl,
    run_reconciles_single_lookup callsC4 mC4 ["alice", "bob"] (by rfl) "bob"⟩

/-! ### C5 -/

/-- C5: when creating a grant fails, the reconciler retries exactly once at
10 ordinals (one access tier) below the mapped level — the issued creates are
exactly [(id, level), (id, level - 10)] — and if the fallback also fails the
outcome is classified from the error message ("already exists" →
AlreadyExists, "inherited membership from group" → InheritedHigherElsewhere,
otherwise Failed, per classifyCreateErr inside fallbackOutcome); and (second
conjunct) reconciliation of the entity always yields one outcome per source
grant, so a failure never aborts the entity's run. -/
theorem grant_conflict_fallback_and_continue :
    (∀ (env : GlEnv) (m : UserMap) (ug : List (String × Nat))
        (g : BBUserGrant) (u : GlUser) (l : Nat) (e1 : String),
      resolveVal env m g.slug = some u →
      permission_map g.permission = some l →
      env.members_create u.id l = some e1 →
      processGrant env false m ug g =
        .ok ⟨mapAfter env m g.slug, dictSet ug u.username l,
          fallbackOutcome env u.id l, lookupsOf m g.slug,
          [(u.id, l), (u.id, l - 10)]⟩) ∧
    (∀ (env : GlEnv) (bb_users : List BBUserGrant) (cu : GlUser) (dry : Bool)
        (m : UserMap) (r : ReconcileResult),
      copy_permissions_for env bb_users cu dry m = .ok r →
      r.outcomes.length = bb_users.length) := by
  constructor
  · intro env m ug g u l e1 hres hperm hfail
    simp only [processGrant, mapGet_mapAfter_self, hres, hperm, hfail,
      Bool.false_eq_true, if_false]
    rcases h2 : env.members_create u.id (l - 10) with _ | e2 <;>
      simp [fallbackOutcome, h2]
  · intro env bb_users cu dry m r h
    exact (copy_permissions_for_ok_spec env bb_users cu dry m r "" h).2.1

/-- Witness for C5 at the concrete failing-create run: bob's PROJECT_ADMIN
grant is attempted at 50 then 40, classified Failed, and the entity run still
produces one outcome per grant. -/
theorem grant_conflict_fallback_and_continue_witness :
    (resolveVal envC1 [] "bob" = some ⟨"bob", 7⟩) ∧
    (permission_map "PROJECT_ADMIN" = some 50) ∧
    (envC1.members_create 7 50 = some "boom") ∧
    (processGrant envC1 false [] [] ⟨"bob", "PROJECT_ADMIN"⟩ =
      .ok ⟨mapAfter envC1 [] "bob", dictSet [] "bob" 50,
        fallbackOutcome envC1 7 50, lookupsOf [] "bob",
        [(7, 50), (7, 40)]⟩) ∧
    (copy_permissions_for envC1 usersC1 svcUser false [] = .ok rC1) ∧
    rC1.outcomes.length = usersC1.length :=
  ⟨by rfl, by rfl, by rfl,
    grant_conflict_fallback_and_continue.1 envC1 [] []
      ⟨"bob", "PROJECT_ADMIN"⟩ ⟨"bob", 7⟩ 50 "boom" (by rfl) (by rfl)
      (by rfl),
    by rfl,
    grant_conflict_fallback_and_continue.2 envC1 usersC1 svcUser false [] rC1
      (by rfl)⟩

/-! ### C2 -/

/-- A poll round never grows the in-flight list. -/
theorem check_and_sleep_length_le (N : Nat) (status : Nat → Nat → String)
    (t : Nat) (processing : List Nat) :
    (check_and_sleep N status t processing).1.length ≤ processing.length := by
  simp only [check_and_sleep, checkJobs_eq_filter]
  exact List.length_filter_le _ _

/-- Every in-flight list recorded by the drain phase stays within the bound
it started with. -/
theorem drain_trace_bound (env : SchedEnv) (N : Nat) :
    ∀ (fuel : Nat) (processing : List Nat) (counter t : Nat),
      processing.length ≤ N →
      ∀ l ∈ (drain_loop env N fuel processing counter t).1, l.length ≤ N := by
  intro fuel
  induction fuel with
  | zero =>
    intro processing counter t hp l hl
    simp only [drain_loop, List.mem_singleton] at hl
    subst hl
    exact hp
  | succ fuel ih =>
    intro processing counter t hp l hl
    by_cases he : processing.isEmpty
    · simp only [drain_loop, if_pos he, List.mem_singleton] at hl
      subst hl
      exact hp
    · simp only [drain_loop, if_neg he, List.mem_cons] at hl
      rcases hl with rfl | hl
      · exact hp
      · refine ih _ counter (t + 1) ?_ l hl
        have hle := check_and_sleep_length_le N env.status t processing
        omega

/-- Every in-flight list recorded by the main scheduling phase stays within
the bound it started with. -/
theorem import_trace_bound (env : SchedEnv) (N : Nat) :
    ∀ (fuel : Nat) (pending : List ProjectMapping) (processing : List Nat)
      (counter t : Nat),
      processing.length ≤ N →
      ∀ l ∈ (import_loop env N fuel pending processing counter t).1,
        l.length ≤ N := by
  intro fuel
  induction fuel with
  | zero =>
    intro pending processing counter t hp l hl
    simp only [import_loop, List.mem_singleton] at hl
    subst hl
    exact hp
  | succ fuel ih =>
    intro pending processing counter t hp l hl
    by_cases hlen : processing.length < N
    · rcases pending with _ | ⟨p, rest⟩
      · simp only [import_loop, if_pos hlen, List.mem_cons] at hl
        rcases hl with rfl | hl
        · exact hp
        · exact drain_trace_bound env N fuel processing counter t hp l hl
      · rcases ht : env.trigger p with j | _ | e
        · simp only [import_loop, if_pos hlen, ht, List.mem_cons] at hl
          rcases hl with rfl | hl
          · exact hp
          · refine ih rest (processing ++ [j]) (counter + 1) t ?_ l hl
            simp only [List.length_append, List.length_singleton]
            omega
        · simp only [import_loop, if_pos hlen, ht, List.mem_cons] at hl
          rcases hl with rfl | hl
          · exact hp
          · exact ih rest processing counter t hp l hl
        · simp only [import_loop, if_pos hlen, ht,
            List.mem_singleton] at hl
          subst hl
          exact hp
    · simp only [import_loop, if_neg hlen, List.mem_cons] at hl
      rcases hl with rfl | hl
      · exact hp
      · refine ih pending _ counter (t + 1) ?_ l hl
        have hle := check_and_sleep_length_le N env.status t processing
        omega

/-- C2: for every environment, bound N, fuel and source sequence, the size of
the in-flight set recorded at every step of the scheduling run (both phases)
never exceeds the concurrency limit N. -/
theorem import_inflight_bounded (env : SchedEnv) (N fuel : Nat)
    (pending : List ProjectMapping) :
    ∀ l ∈ (import_loop env N fuel pending [] 0 0).1, l.length ≤ N :=
  import_trace_bound env N fuel pending [] 0 0 (by simp)

/-- Witness for C2 at a concrete run with N = 4 and one imported repo. -/
theorem import_inflight_bounded_witness :
    ([0] ∈ (import_loop envSched 4 5 [pC3] [] 0 0).1) ∧
    ([0] : List Nat).length ≤ 4 :=
  ⟨by decide, import_inflight_bounded envSched 4 5 [pC3] [0] (by decide)⟩

/-! ### C9 -/

/-- Members surviving a poll round were in-flight before it. -/
theorem mem_check_and_sleep (N : Nat) (status : Nat → Nat → String) (t : Nat)
    (l : List Nat) (j : Nat) (h : j ∈ (check_and_sleep N status t l).1) :
    j ∈ l := by
  simp only [check_and_sleep, checkJobs_eq_filter] at h
  exact (List.mem_filter.mp h).1

/-- Once every in-flight job has stopped, a poll round clears the list. -/
theorem check_and_sleep_nil_of_stopped (N : Nat) (env : SchedEnv) (T t : Nat)
    (l : List Nat) (hstop : ∀ j ∈ l, stopsAfter env T j) (hT : T ≤ t) :
    (check_and_sleep N env.status t l).1 = [] := by
  simp only [check_and_sleep, checkJobs_eq_filter]
  rw [List.filter_eq_nil_iff]
  intro j hj
  have := hstop j hj t hT
  simpa using this

/-- The drain loop acknowledges an empty in-flight list in one step. -/
theorem drain_loop_nil (env : SchedEnv) (N : Nat) :
    ∀ (fuel counter t : Nat),
      (drain_loop env N (fuel + 1) [] counter t).2 = some (.done counter) := by
  intro fuel counter t
  simp [drain_loop]

/-- The drain phase terminates with the carried counter once every in-flight
job is guaranteed to stop being "started" from round T on. -/
theorem drain_term (env : SchedEnv) (N T : Nat) :
    ∀ (d t : Nat) (processing : List Nat) (counter : Nat),
      (∀ j ∈ processing, stopsAfter env T j) → T ≤ t + d →
      ∃ fuel, (drain_loop env N fuel processing counter t).2 =
        some (.done counter) := by
  intro d
  induction d with
  | zero =>
    intro t processing counter hstop hT
    rcases processing with _ | ⟨j, rest⟩
    · exact ⟨0 + 1, drain_loop_nil env N 0 counter t⟩
    · refine ⟨(0 + 1) + 1, ?_⟩
      have hupd : (check_and_sleep N env.status t (j :: rest)).1 = [] :=
        check_and_sleep_nil_of_stopped N env T t (j :: rest) hstop
          (by omega)
      simp only [drain_loop, List.isEmpty_cons, Bool.false_eq_true,
        if_false]
      rw [hupd]
      exact drain_loop_nil env N 0 counter (t + 1)
  | succ d ih =>
    intro t processing counter hstop hT
    rcases processing with _ | ⟨j, rest⟩
    · exact ⟨0 + 1, drain_loop_nil env N 0 counter t⟩
    · have hstop2 : ∀ j' ∈ (check_and_sleep N env.status t (j :: rest)).1,
          stopsAfter env T j' := by
        intro j' hj'
        exact hstop j' (mem_check_and_sleep N env.status t (j :: rest) j' hj')
      obtain ⟨f, hf⟩ := ih (t + 1) _ counter hstop2 (by omega)
      refine ⟨f + 1, ?_⟩
      simp only [drain_loop, List.isEmpty_cons, Bool.false_eq_true,
        if_false]
      exact hf

/-- Unfolding: a poll step of the main phase. -/
theorem import_loop_poll (env : SchedEnv) (N fuel : Nat)
    (pending : List ProjectMapping) (processing : List Nat) (counter t : Nat)
    (hlen : ¬ processing.length < N) :
    (import_loop env N (fuel + 1) pending processing counter t).2 =
      (import_loop env N fuel pending
        ((check_and_sleep N env.status t processing).1) counter (t + 1)).2 := by
  simp only [import_loop, if_neg hlen]

/-- Unfolding: the break into the drain phase. -/
theorem import_loop_break (env : SchedEnv) (N fuel : Nat)
    (processing : List Nat) (counter t : Nat)
    (hlen : processing.length < N) :
    (import_loop env N (fuel + 1) [] processing counter t).2 =
      (drain_loop env N fuel processing counter t).2 := by
  simp only [import_loop, if_pos hlen]

/-- Unfolding: a trigger step that starts a job. -/
theorem import_loop_job (env : SchedEnv) (N fuel : Nat) (p : ProjectMapping)
    (rest : List ProjectMapping) (processing : List Nat) (counter t j : Nat)
    (hlen : processing.length < N) (htp : env.trigger p = .job j) :
    (import_loop env N (fuel + 1) (p :: rest) processing counter t).2 =
      (import_loop env N fuel rest (processing ++ [j]) (counter + 1) t).2 := by
  simp only [import_loop, if_pos hlen, htp]

/-- Unfolding: a trigger step that is skipped by the duplicate policy. -/
theorem import_loop_skip (env : SchedEnv) (N fuel : Nat) (p : ProjectMapping)
    (rest : List ProjectMapping) (processing : List Nat) (counter t : Nat)
    (hlen : processing.length < N) (htp : env.trigger p = .skipped) :
    (import_loop env N (fuel + 1) (p :: rest) processing counter t).2 =
      (import_loop env N fuel rest processing counter t).2 := by
  simp only [import_loop, if_pos hlen, htp]

/-- A finite pending list with pointwise stopping bounds admits one uniform
stopping bound. -/
theorem exists_uniform_stop (env : SchedEnv) :
    ∀ pending : List ProjectMapping,
      (∀ p ∈ pending, ∀ j, env.trigger p = .job j →
        ∃ T, stopsAfter env T j) →
      ∃ T, ∀ p ∈ pending, ∀ j, env.trigger p = .job j →
        stopsAfter env T j := by
  intro pending
  induction pending with
  | nil => exact fun _ => ⟨0, by simp⟩
  | cons p rest ih =>
    intro h
    obtain ⟨T2, hT2⟩ := ih (fun q hq => h q (List.mem_cons_of_mem p hq))
    rcases htp : env.trigger p with j | _ | e
    · obtain ⟨T1, hT1⟩ := h p (List.mem_cons_self p rest) j htp
      refine ⟨max T1 T2, ?_⟩
      intro q hq j' hj'
      rcases List.mem_cons.mp hq with rfl | hq
      · rw [htp] at hj'
        injection hj' with hjj
        subst hjj
        intro t ht
        exact hT1 t (le_trans (Nat.le_max_left T1 T2) ht)
      · intro t ht
        exact hT2 q hq j' hj' t (le_trans (Nat.le_max_right T1 T2) ht)
    · refine ⟨T2, ?_⟩
      intro q hq j' hj'
      rcases List.mem_cons.mp hq with rfl | hq
      · rw [htp] at hj'
        exact absurd hj' (by simp)
      · exact hT2 q hq j' hj'
    · refine ⟨T2, ?_⟩
      intro q hq j' hj'
      rcases List.mem_cons.mp hq with rfl | hq
      · rw [htp] at hj'
        exact absurd hj' (by simp)
      · exact hT2 q hq j' hj'

/-- The main scheduling phase terminates and reports the triggered count,
assuming no fatal trigger and a uniform stopping bound T for every job. -/
theorem import_term_aux (env : SchedEnv) (N T : Nat) (hN : 1 ≤ N) :
    ∀ pending : List ProjectMapping,
      (∀ p ∈ pending, ∀ e, env.trigger p ≠ .fatal e) →
      (∀ p ∈ pending, ∀ j, env.trigger p = .job j → stopsAfter env T j) →
      ∀ (d t : Nat) (processing : List Nat) (counter : Nat),
        (∀ j ∈ processing, stopsAfter env T j) → T ≤ t + d →
        ∃ fuel, (import_loop env N fuel pending processing counter t).2 =
          some (.done (counter +
            List.countP (fun q => (env.trigger q).isJob) pending)) := by
  intro pending
  induction pending with
  | nil =>
    intro _ _ d
    induction d with
    | zero =>
      intro t processing counter hstop hT
      by_cases hlen : processing.length < N
      · obtain ⟨f, hf⟩ := drain_term env N T 0 t processing counter hstop hT
        refine ⟨f + 1, ?_⟩
        rw [import_loop_break env N f processing counter t hlen]
        simpa using hf
      · have hupd := check_and_sleep_nil_of_stopped N env T t processing
          hstop (by omega)
        have h0 : ([] : List Nat).length < N := by simpa using hN
        obtain ⟨f, hf⟩ := drain_term env N T 0 (t + 1) [] counter (by simp)
          (by omega)
        refine ⟨(f + 1) + 1, ?_⟩
        rw [import_loop_poll env N (f + 1) [] processing counter t hlen, hupd,
          import_loop_break env N f [] counter (t + 1) h0]
        simpa using hf
    | succ d ihd =>
      intro t processing counter hstop hT
      by_cases hlen : processing.length < N
      · obtain ⟨f, hf⟩ := drain_term env N T (d + 1) t processing counter
          hstop hT
        refine ⟨f + 1, ?_⟩
        rw [import_loop_break env N f processing counter t hlen]
        simpa using hf
      · have hstop2 : ∀ j ∈ (check_and_sleep N env.status t processing).1,
            stopsAfter env T j :=
          fun j hj => hstop j (mem_check_and_sleep N env.status t processing
            j hj)
        obtain ⟨f, hf⟩ := ihd (t + 1) _ counter hstop2 (by omega)
        refine ⟨f + 1, ?_⟩
        rw [import_loop_poll env N f [] processing counter t hlen]
        exact hf
  | cons p rest ih =>
    intro hfatal hjob
    have hfatalr : ∀ q ∈ rest, ∀ e, env.trigger q ≠ .fatal e :=
      fun q hq => hfatal q (List.mem_cons_of_mem p hq)
    have hjobr : ∀ q ∈ rest, ∀ j, env.trigger q = .job j →
        stopsAfter env T j :=
      fun q hq => hjob q (List.mem_cons_of_mem p hq)
    have ihr := ih hfatalr hjobr
    have htrig : ∀ (d2 t2 : Nat) (proc2 : List Nat) (counter2 : Nat),
        proc2.length < N → (∀ j ∈ proc2, stopsAfter env T j) →
        T ≤ t2 + d2 →
        ∃ fuel, (import_loop env N fuel (p :: rest) proc2 counter2 t2).2 =
          some (.done (counter2 +
            List.countP (fun q => (env.trigger q).isJob) (p :: rest))) := by
      intro d2 t2 proc2 counter2 hlen2 hstop2 hT2
      rcases htp : env.trigger p with j | _ | e
      · have hstopj : ∀ j' ∈ proc2 ++ [j], stopsAfter env T j' := by
          intro j' hj'
          rcases List.mem_append.mp hj' with h | h
          · exact hstop2 j' h
          · have hjj : j' = j := by simpa using h
            rw [hjj]
            exact hjob p (List.mem_cons_self p rest) j htp
        obtain ⟨f, hf⟩ := ihr d2 t2 (proc2 ++ [j]) (counter2 + 1) hstopj hT2
        refine ⟨f + 1, ?_⟩
        rw [import_loop_job env N f p rest proc2 counter2 t2 j hlen2 htp]
        have hcount : counter2 +
            List.countP (fun q => (env.trigger q).isJob) (p :: rest)
            = (counter2 + 1) +
              List.countP (fun q => (env.trigger q).isJob) rest := by
          simp [List.countP_cons, htp, TriggerOutcome.isJob]
          omega
        rw [hcount]
        exact hf
      · obtain ⟨f, hf⟩ := ihr d2 t2 proc2 counter2 hstop2 hT2
        refine ⟨f + 1, ?_⟩
        rw [import_loop_skip env N f p rest proc2 counter2 t2 hlen2 htp]
        have hcount : counter2 +
            List.countP (fun q => (env.trigger q).isJob) (p :: rest)
            = counter2 + List.countP (fun q => (env.trigger q).isJob) rest := by
          simp [List.countP_cons, htp, TriggerOutcome.isJob]
        rw [hcount]
        exact hf
      · exact absurd htp (hfatal p (List.mem_cons_self p rest) e)
    intro d
    induction d with
    | zero =>
      intro t processing counter hstop hT
      by_cases hlen : processing.length < N
      · exact htrig 0 t processing counter hlen hstop hT
      · have hupd := check_and_sleep_nil_of_stopped N env T t processing
          hstop (by omega)
        have h0 : ([] : List Nat).length < N := by simpa using hN
        obtain ⟨f, hf⟩ := htrig 0 (t + 1) [] counter h0 (by simp) (by omega)
        refine ⟨f + 1, ?_⟩
        rw [import_loop_poll env N f (p :: rest) processing counter t hlen,
          hupd]
        exact hf
    | succ d ihd =>
      intro t processing counter hstop hT
      by_cases hlen : processing.length < N
      · exact htrig (d + 1) t processing counter hlen hstop hT
      · have hstop2 : ∀ j ∈ (check_and_sleep N env.status t processing).1,
            stopsAfter env T j :=
          fun j hj => hstop j (mem_check_and_sleep N env.status t processing
            j hj)
        obtain ⟨f, hf⟩ := ihd (t + 1) _ counter hstop2 (by omega)
        refine ⟨f + 1, ?_⟩
        rw [import_loop_poll env N f (p :: rest) processing counter t hlen]
        exact hf

/-- C9: for every finite source sequence, if no submission is fatal and every
triggered job eventually stops being reported "started", the scheduling loop
(with a positive concurrency limit) terminates: with enough fuel it reaches
the exhausted-and-empty state and reports as done exactly the number of
source mappings that triggered a job. -/
theorem import_projects_terminates (env : SchedEnv) (N : Nat)
    (pending : List ProjectMapping) (hN : 1 ≤ N)
    (hfatal : ∀ p ∈ pending, ∀ e, env.trigger p ≠ .fatal e)
    (hterm : ∀ p ∈ pending, ∀ j, env.trigger p = .job j →
      ∃ T, stopsAfter env T j) :
    ∃ fuel, (import_loop env N fuel pending [] 0 0).2 =
      some (.done (List.countP (fun q => (env.trigger q).isJob) pending)) := by
  obtain ⟨T, hT⟩ := exists_uniform_stop env pending hterm
  obtain ⟨f, hf⟩ := import_term_aux env N T hN pending hfatal hT T 0 [] 0
    (by simp) (by omega)
  exact ⟨f, by simpa using hf⟩

/-- Witness for C9 at a concrete run: one mapping, job 0, polls answering
"finished" from round 0 on. -/
theorem import_projects_terminates_witness :
    (1 ≤ 4) ∧
    (∀ p ∈ [pC3], ∀ e, envSched.trigger p ≠ .fatal e) ∧
    (∀ p ∈ [pC3], ∀ j, envSched.trigger p = .job j →
      ∃ T, stopsAfter envSched T j) ∧
    (∃ fuel, (import_loop envSched 4 fuel [pC3] [] 0 0).2 =
      some (.done
        (List.countP (fun q => (envSched.trigger q).isJob) [pC3]))) := by
  have hfatal : ∀ p ∈ [pC3], ∀ e, envSched.trigger p ≠ .fatal e := by
    intro p hp e
    simp [envSched]
  have hterm : ∀ p ∈ [pC3], ∀ j, envSched.trigger p = .job j →
      ∃ T, stopsAfter envSched T j := by
    intro p hp j hj
    refine ⟨0, ?_⟩
    unfold stopsAfter
    intro t ht
    simp [envSched]
  exact ⟨by decide, hfatal, hterm,
    import_projects_terminates envSched 4 [pC3] (by decide) hfatal hterm⟩
